import Mathlib

/-!
# telegram-grok-bot: bounded conversation history and context window

A shallow embedding of `db/db.go` (package `db`: `LoadHistory`, `AddToHistory`,
`InitDB`) and of the history functions of `cmd/main.go` (package `main`:
`callGrokAPI`, `getChatHistory`, `addToHistory`, `clearHistory`), together with
the part of the BoltDB and `encoding/json` behaviour these functions rely on.

Conventions of the embedding.

* A Go `string` is a Lean `String`, a `[]string` is a `List String`
  (a nil slice and an empty slice are both `[]`); `s[i:]` is `List.drop i`.
* A chat id (`int64`) is an `Int`; every statement below holds for all integers,
  in particular for those in the `int64` range.
* The bolt file is the content of its `chat_history` bucket, when that bucket
  exists.  A stored value is identified by what `json.Unmarshal` makes of it.
* A transaction may be hit by a storage failure; where it strikes is an explicit
  argument (`Fault`) of every operation that opens a transaction.
* The functions of package `main` reach the database through `getDB()`, which
  runs `db.InitDB` on first use; they are given the database state behind that
  handle.  The mutexes and the `closed` flag are not part of the state: the
  functions are modelled one call at a time.
* Strings are valid UTF-8 (replies come out of `json.Unmarshal` or are program
  constants), on which `json.Marshal` followed by `json.Unmarshal` is the
  identity.
-/

/-! ## BoltDB -/

namespace bolt

/-- The point at which the storage layer fails during one transaction, if it
does: when the transaction is begun (database not open), when the closure
writes (`Bucket.Put` / `Bucket.Delete` return an error), or when the
transaction is committed (disk write fails). -/
inductive Fault
  | none
  | beginTx
  | write
  | commit
  deriving DecidableEq, Repr

end bolt

/-- The ways a transaction closure of this program stops early.  The first three
are Go `error` values; `nilBucket` stands for the run-time panic raised by a
method call on a nil `*bolt.Bucket`, which unwinds through `DB.Update`. -/
inductive Error
  | bucketNotFound
  | unmarshal
  | storage
  | nilBucket
  deriving DecidableEq, Repr

namespace db

/-- Constant `MaxHistory = 10` (`db/db.go`, line 14). -/
def MaxHistory : Nat := 10

/-- Go type `ChatHistory struct { History []string }`, the stored value. -/
structure ChatHistory where
  History : List String
  deriving DecidableEq, Repr

end db

/-- The bytes stored under a key, identified by the result of decoding them with
`json.Unmarshal` into a `ChatHistory`: either they decode to `ch`, or decoding
reports an error (`raw` tells such values apart). -/
inductive Bytes
  | encoded (ch : db.ChatHistory)
  | malformed (raw : String)
  deriving DecidableEq, Repr

/-- Go `json.Marshal(ch)`: never fails on a `ChatHistory`. -/
def jsonMarshal (ch : db.ChatHistory) : Bytes := Bytes.encoded ch

/-- Go `json.Unmarshal(val, &ch)`. -/
def jsonUnmarshal : Bytes → Except Error db.ChatHistory
  | Bytes.encoded ch => Except.ok ch
  | Bytes.malformed _ => Except.error Error.unmarshal

namespace bolt

/-- A bucket: a finite map from keys to stored values. -/
abbrev Bucket := String → Option Bytes

/-- The database file: the `chat_history` bucket, if it has been created. -/
structure DB where
  bucket : Option Bucket

/-- Bolt `tx.Bucket([]byte(BucketName))`: nil when the bucket does not exist. -/
def Tx.Bucket (tx : DB) : Option Bucket := tx.bucket

/-- Bolt `b.Get(key)`: nil when the key is absent. -/
def Bucket.Get (b : Bucket) (key : String) : Option Bytes := b key

/-- Bolt `b.Put(key, value)` inside a write transaction. -/
def Bucket.Put (io : Fault) (b : Bucket) (key : String) (value : Bytes) : Except Error Bucket :=
  if io = Fault.write then Except.error Error.storage
  else Except.ok (fun k => if k = key then some value else b k)

/-- Bolt `b.Delete(key)` inside a write transaction; deleting an absent key is
not an error. -/
def Bucket.Delete (io : Fault) (b : Bucket) (key : String) : Except Error Bucket :=
  if io = Fault.write then Except.error Error.storage
  else Except.ok (fun k => if k = key then none else b k)

/-- Bolt `tx.CreateBucketIfNotExists([]byte(BucketName))`. -/
def Tx.CreateBucketIfNotExists (tx : DB) : DB :=
  match tx.bucket with
  | some b => { bucket := some b }
  | none => { bucket := some (fun _ => none) }

/-- Bolt `db.Update(fn)`: runs `fn` on a private copy of the database.  If the
transaction cannot be begun, if `fn` returns an error (or panics), or if the
commit fails, the transaction is rolled back and the database keeps its old
content; otherwise the copy becomes the database. -/
def DB.Update (io : Fault) (d : DB) (fn : DB → Except Error DB) : DB × Option Error :=
  if io = Fault.beginTx then (d, some Error.storage)
  else
    match fn d with
    | Except.error e => (d, some e)
    | Except.ok tx => if io = Fault.commit then (d, some Error.storage) else (tx, none)

/-- Bolt `db.View(fn)`: runs `fn` on a read-only snapshot. -/
def DB.View {α : Type} (io : Fault) (d : DB) (fn : DB → Except Error α) : Except Error α :=
  if io = Fault.beginTx then Except.error Error.storage else fn d

end bolt

/-! ## Record keys: `fmt.Sprintf("chat_%d", chatID)` -/

/-- The decimal digit `d` as a character. -/
def digitChar (d : Nat) : Char := Char.ofNat (48 + d)

/-- Verb `%d` on a natural number: its decimal digits, most significant first. -/
def fmtNat (n : Nat) : List Char :=
  if n = 0 then [Char.ofNat 48] else ((Nat.digits 10 n).reverse).map digitChar

/-- Verb `%d` on an `int64`: a minus sign before the digits of a negative number. -/
def fmtInt : Int → List Char
  | Int.ofNat n => fmtNat n
  | Int.negSucc n => Char.ofNat 45 :: fmtNat (n + 1)

/-- The record key `fmt.Sprintf("chat_%d", chatID)`. -/
def chatKey (chatID : Int) : String := String.mk ("chat_".toList ++ fmtInt chatID)

/-! ## Package `db` -/

namespace db

/-- Function `InitDB` (lines 26-40): opens the file and creates the bucket if it does not exist.
`openErr` says whether `bolt.Open` fails. -/
def InitDB (openErr : Bool) (io : bolt.Fault) (file : bolt.DB) : Except Error bolt.DB :=
  if openErr then Except.error Error.storage
  else
    match bolt.DB.Update io file (fun tx => Except.ok (bolt.Tx.CreateBucketIfNotExists tx)) with
    | (_, some e) => Except.error e
    | (d, none) => Except.ok d

/-- Method `(d *DB) LoadHistory(chatID)` (lines 52-75): the pair `(history, err)`
it returns; `history` stays nil when the closure returns an error. -/
def LoadHistory (io : bolt.Fault) (d : bolt.DB) (chatID : Int) : List String × Option Error :=
  let key := chatKey chatID
  match bolt.DB.View io d (fun tx =>
      match bolt.Tx.Bucket tx with
      | none => Except.error Error.bucketNotFound
      | some b =>
        match bolt.Bucket.Get b key with
        | none => Except.ok []
        | some val =>
          match jsonUnmarshal val with
          | Except.error e => Except.error e
          | Except.ok ch => Except.ok ch.History) with
  | Except.ok history => (history, none)
  | Except.error e => ([], some e)

/-- Method `(d *DB) AddToHistory(chatID, entry)` (lines 77-106): the database
afterwards and the error returned. -/
def AddToHistory (io : bolt.Fault) (d : bolt.DB) (chatID : Int) (entry : String) :
    bolt.DB × Option Error :=
  let key := chatKey chatID
  bolt.DB.Update io d (fun tx =>
    match bolt.Tx.Bucket tx with
    | none => Except.error Error.bucketNotFound
    | some b =>
      match (match bolt.Bucket.Get b key with
             | none => Except.ok []
             | some val =>
               match jsonUnmarshal val with
               | Except.error e => Except.error e
               | Except.ok ch => Except.ok ch.History) with
      | Except.error e => Except.error e
      | Except.ok history =>
        let history := history ++ [entry]
        let history :=
          if history.length > MaxHistory then history.drop (history.length - MaxHistory)
          else history
        match bolt.Bucket.Put io b key (jsonMarshal { History := history }) with
        | Except.error e => Except.error e
        | Except.ok b' => Except.ok { bucket := some b' })

end db

/-! ## Package `main` -/

namespace main

/-- Constant `MaxContextMessages = 8` (`cmd/main.go`, line 23). -/
def MaxContextMessages : Nat := 8

/-- Go type `Message struct { Role, Content string }`. -/
structure Message where
  Role : String
  Content : String
  deriving DecidableEq, Repr

/-- The `messages` slice `callGrokAPI(prompt, contextHistory)` puts in the
request body (lines 100-113 of `cmd/main.go`). -/
def callGrokAPI (prompt : String) (contextHistory : List String) : List Message :=
  let messages : List Message :=
    [{ Role := "system", Content := "You are Grok, a helpful AI built by xAI." }]
  let start := contextHistory.length
  let start := if start > MaxContextMessages - 1 then MaxContextMessages - 1 else start
  let recent := contextHistory.drop (contextHistory.length - start)
  let messages :=
    recent.foldl (fun ms h => ms ++ [{ Role := "assistant", Content := h }]) messages
  messages ++ [{ Role := "user", Content := prompt }]

/-- Function `getChatHistory(chatID)` (lines 173-180). -/
def getChatHistory (io : bolt.Fault) (d : bolt.DB) (chatID : Int) : List String :=
  match db.LoadHistory io d chatID with
  | (_, some _) => []
  | (history, none) => history

/-- Function `addToHistory(chatID, response)` (lines 182-203): the database
afterwards, or `none` when the call panics (its second closure calls `Put` on
the bucket without a nil check).  `io₁`, `io₂`, `io₃` are the storage faults met by its three
transactions (append, re-read, second write). -/
def addToHistory (io₁ io₂ io₃ : bolt.Fault) (d : bolt.DB) (chatID : Int) (response : String) :
    Option bolt.DB :=
  match db.AddToHistory io₁ d chatID response with
  | (d₁, some _) => some d₁
  | (d₁, none) =>
    match db.LoadHistory io₂ d₁ chatID with
    | (_, some _) => some d₁
    | (history, none) =>
      if history.length > MaxContextMessages then
        let newHistory := history.drop (history.length - MaxContextMessages)
        match bolt.DB.Update io₃ d₁ (fun tx =>
            match bolt.Tx.Bucket tx with
            | none => Except.error Error.nilBucket
            | some b =>
              match bolt.Bucket.Put io₃ b (chatKey chatID)
                  (jsonMarshal { History := newHistory }) with
              | Except.error e => Except.error e
              | Except.ok b' => Except.ok { bucket := some b' }) with
        | (_, some Error.nilBucket) => none
        | (d₂, _) => some d₂
      else some d₁

/-- Function `clearHistory(chatID)` (lines 205-210): the database afterwards, or
`none` when the call panics (the closure calls `Delete` on the bucket without a
nil check); the error `Update` returns is dropped. -/
def clearHistory (io : bolt.Fault) (d : bolt.DB) (chatID : Int) : Option bolt.DB :=
  match bolt.DB.Update io d (fun tx =>
      match bolt.Tx.Bucket tx with
      | none => Except.error Error.nilBucket
      | some b =>
        match bolt.Bucket.Delete io b (chatKey chatID) with
        | Except.error e => Except.error e
        | Except.ok b' => Except.ok { bucket := some b' }) with
  | (_, some Error.nilBucket) => none
  | (d', _) => some d'

end main

/-! ## Vocabulary of the specification -/

/-- The last `k` elements of `xs` in their original order (all of `xs` when it
has fewer than `k`): reverse, keep the first `k`, reverse back. -/
def lastN {α : Type} (k : Nat) (xs : List α) : List α := ((xs.reverse).take k).reverse

/-- The fixed system directive that opens every request. -/
def systemDirective : main.Message :=
  { Role := "system", Content := "You are Grok, a helpful AI built by xAI." }

/-- A history entry as it is sent: an assistant message. -/
def assistantMessage (h : String) : main.Message := { Role := "assistant", Content := h }

/-- The prompt as it is sent: a user message. -/
def userMessage (prompt : String) : main.Message := { Role := "user", Content := prompt }

/-- The record stored for a chat id: `none` when the bucket is missing or holds
nothing under the id's key. -/
def record (d : bolt.DB) (chatID : Int) : Option Bytes :=
  match d.bucket with
  | none => none
  | some b => b (chatKey chatID)

/-- The database right after `InitDB` on a fresh file: an empty bucket. -/
def emptyStore : bolt.DB := { bucket := some (fun _ => none) }

/-- The database with the record of `chatID` replaced by the encoding of
`history`, everything else as in bucket `b`. -/
def withHistory (b : bolt.Bucket) (chatID : Int) (history : List String) : bolt.DB :=
  { bucket := some (fun k =>
      if k = chatKey chatID then some (Bytes.encoded { History := history }) else b k) }

/-- The value of a decimal digit character. -/
def charDigit (c : Char) : Nat := c.toNat - 48

/-- Reading a decimal numeral back. -/
def parseNat (cs : List Char) : Nat := Nat.ofDigits 10 ((cs.map charDigit).reverse)

/-- Successive `db.AddToHistory` calls for one id, each meeting its own storage
fault; `none` as soon as one of them reports an error. -/
def appendAll (d : bolt.DB) (chatID : Int) : List (bolt.Fault × String) → Option bolt.DB
  | [] => some d
  | step :: rest =>
    match db.AddToHistory step.1 d chatID step.2 with
    | (d', none) => appendAll d' chatID rest
    | (_, some _) => none

/-- Successive `main.addToHistory` calls for one id with no storage fault;
`none` if one of them panics. -/
def recordAll (d : bolt.DB) (chatID : Int) : List String → Option bolt.DB
  | [] => some d
  | reply :: rest =>
    match main.addToHistory bolt.Fault.none bolt.Fault.none bolt.Fault.none d chatID reply with
    | some d' => recordAll d' chatID rest
    | none => none

/-- Every history that can be read from the database has at most `MaxHistory`
entries. -/
def BoundedStore (d : bolt.DB) : Prop :=
  ∀ (chatID : Int) (s : List String),
    db.LoadHistory bolt.Fault.none d chatID = (s, none) → s.length ≤ db.MaxHistory

/-! ## Lists: keeping a suffix -/

theorem lastN_eq_drop {α : Type} (k : Nat) (xs : List α) :
    lastN k xs = xs.drop (xs.length - k) := by
  simp [lastN, List.take_reverse]

theorem lastN_length {α : Type} (k : Nat) (xs : List α) :
    (lastN k xs).length = min k xs.length := by
  rw [lastN_eq_drop, List.length_drop]
  omega

theorem lastN_of_length_le {α : Type} (k : Nat) (xs : List α) (h : xs.length ≤ k) :
    lastN k xs = xs := by
  rw [lastN_eq_drop, Nat.sub_eq_zero_of_le h, List.drop_zero]

theorem lastN_min_length {α : Type} (k : Nat) (xs : List α) :
    lastN (min xs.length k) xs = lastN k xs := by
  rw [lastN_eq_drop, lastN_eq_drop]
  congr 1
  omega

theorem lastN_lastN {α : Type} (m k : Nat) (xs : List α) (h : m ≤ k) :
    lastN m (lastN k xs) = lastN m xs := by
  simp only [lastN_eq_drop, List.length_drop, List.drop_drop]
  congr 1
  omega

theorem foldl_append_singleton {α β : Type} (f : α → β) (xs : List α) (init : List β) :
    xs.foldl (fun ms h => ms ++ [f h]) init = init ++ xs.map f := by
  induction xs generalizing init with
  | nil => simp
  | cons x rest ih => simp [ih]

/-! ## C1: the context window -/

/-- C1. For every history and every prompt, the message list built by
`callGrokAPI` is the system directive, then the last
`min (len history) (MaxContextMessages - 1) = min (len history) 7` entries of the
history in their original order, each as an assistant message, then the prompt
as the single final user message; so it has `min (len history) 7 + 2` messages.
For the history a1..a8 and the prompt "hi" it is system, a2..a8, "hi". -/
theorem callGrokAPI_context_window (prompt : String) (history : List String) :
    main.callGrokAPI prompt history =
        systemDirective ::
          ((lastN (min history.length (main.MaxContextMessages - 1)) history).map assistantMessage
            ++ [userMessage prompt])
      ∧ min history.length (main.MaxContextMessages - 1) = min history.length 7
      ∧ (main.callGrokAPI prompt history).length = min history.length 7 + 2
      ∧ main.callGrokAPI "hi" ["a1", "a2", "a3", "a4", "a5", "a6", "a7", "a8"] =
          [systemDirective, assistantMessage "a2", assistantMessage "a3", assistantMessage "a4",
            assistantMessage "a5", assistantMessage "a6", assistantMessage "a7",
            assistantMessage "a8", userMessage "hi"] := by
  have key : main.callGrokAPI prompt history =
      systemDirective ::
        ((lastN (min history.length (main.MaxContextMessages - 1)) history).map assistantMessage
          ++ [userMessage prompt]) := by
    unfold main.callGrokAPI
    simp only [foldl_append_singleton]
    rw [lastN_eq_drop]
    have hstart : (if history.length > main.MaxContextMessages - 1
        then main.MaxContextMessages - 1 else history.length)
        = min history.length (main.MaxContextMessages - 1) := by
      split <;> omega
    rw [hstart]
    rfl
  refine ⟨key, rfl, ?_, by decide⟩
  rw [key]
  simp only [List.length_cons, List.length_append, List.length_map, lastN_length,
    List.length_singleton, List.length_nil, main.MaxContextMessages]
  omega

/-! ## Observations on the database -/

/-! ## Package `db`: what the two operations compute -/

theorem truncate_eq_lastN (k : Nat) (h : List String) :
    (if h.length > k then h.drop (h.length - k) else h) = lastN k h := by
  split
  · rw [lastN_eq_drop]
  · rw [lastN_of_length_le]
    omega

theorem LoadHistory_beginTx (d : bolt.DB) (chatID : Int) :
    db.LoadHistory bolt.Fault.beginTx d chatID = ([], some Error.storage) := by
  simp [db.LoadHistory, bolt.DB.View]

theorem LoadHistory_of_ne_beginTx (io : bolt.Fault) (h : io ≠ bolt.Fault.beginTx) (d : bolt.DB)
    (chatID : Int) : db.LoadHistory io d chatID = db.LoadHistory bolt.Fault.none d chatID := by
  simp [db.LoadHistory, bolt.DB.View, h]

theorem LoadHistory_no_bucket (d : bolt.DB) (chatID : Int) (h : d.bucket = none) :
    db.LoadHistory bolt.Fault.none d chatID = ([], some Error.bucketNotFound) := by
  simp [db.LoadHistory, bolt.DB.View, bolt.Tx.Bucket, h]

theorem LoadHistory_absent (d : bolt.DB) (chatID : Int) (b : bolt.Bucket) (h : d.bucket = some b)
    (hk : b (chatKey chatID) = none) :
    db.LoadHistory bolt.Fault.none d chatID = ([], none) := by
  simp [db.LoadHistory, bolt.DB.View, bolt.Tx.Bucket, bolt.Bucket.Get, h, hk]

theorem LoadHistory_encoded (d : bolt.DB) (chatID : Int) (b : bolt.Bucket) (ch : db.ChatHistory)
    (h : d.bucket = some b) (hk : b (chatKey chatID) = some (Bytes.encoded ch)) :
    db.LoadHistory bolt.Fault.none d chatID = (ch.History, none) := by
  simp [db.LoadHistory, bolt.DB.View, bolt.Tx.Bucket, bolt.Bucket.Get, h, hk, jsonUnmarshal]

theorem LoadHistory_malformed (d : bolt.DB) (chatID : Int) (b : bolt.Bucket) (raw : String)
    (h : d.bucket = some b) (hk : b (chatKey chatID) = some (Bytes.malformed raw)) :
    db.LoadHistory bolt.Fault.none d chatID = ([], some Error.unmarshal) := by
  simp [db.LoadHistory, bolt.DB.View, bolt.Tx.Bucket, bolt.Bucket.Get, h, hk, jsonUnmarshal]

theorem LoadHistory_withHistory (b : bolt.Bucket) (chatID : Int) (history : List String) :
    db.LoadHistory bolt.Fault.none (withHistory b chatID history) chatID = (history, none) := by
  simp [db.LoadHistory, bolt.DB.View, bolt.Tx.Bucket, bolt.Bucket.Get, withHistory,
    jsonUnmarshal]

/-- A load that reports an error returns no history. -/
theorem LoadHistory_error_nil (io : bolt.Fault) (d : bolt.DB) (chatID : Int) (s : List String)
    (e : Error) (h : db.LoadHistory io d chatID = (s, some e)) : s = [] := by
  obtain ⟨_ | b⟩ := d
  · cases io <;> simp [db.LoadHistory, bolt.DB.View, bolt.Tx.Bucket] at h <;> exact h.1
  · cases hk : b (chatKey chatID) with
    | none =>
      cases io <;> simp [db.LoadHistory, bolt.DB.View, bolt.Tx.Bucket, bolt.Bucket.Get, hk] at h
      all_goals exact h.1
    | some v =>
      cases v <;> cases io <;>
        simp [db.LoadHistory, bolt.DB.View, bolt.Tx.Bucket, bolt.Bucket.Get, hk,
          jsonUnmarshal] at h
      all_goals exact h.1

/-- A successful append: no storage fault struck, the bucket exists, the record
of the id could be read, and the new database holds the last `MaxHistory`
entries of the old history followed by the entry. -/
theorem AddToHistory_ok (io : bolt.Fault) (d d' : bolt.DB) (chatID : Int) (entry : String)
    (h : db.AddToHistory io d chatID entry = (d', none)) :
    io = bolt.Fault.none ∧ ∃ b s, d.bucket = some b
      ∧ db.LoadHistory bolt.Fault.none d chatID = (s, none)
      ∧ d' = withHistory b chatID (lastN db.MaxHistory (s ++ [entry])) := by
  obtain ⟨_ | b⟩ := d
  · cases io <;> simp [db.AddToHistory, bolt.DB.Update, bolt.Tx.Bucket] at h
  · cases hk : b (chatKey chatID) with
    | none =>
      cases io <;>
        simp [db.AddToHistory, bolt.DB.Update, bolt.Tx.Bucket, bolt.Bucket.Get, hk,
          bolt.Bucket.Put, jsonMarshal, truncate_eq_lastN] at h
      refine ⟨rfl, b, [], rfl, LoadHistory_absent _ _ b rfl hk, ?_⟩
      rw [← h]
      rfl
    | some v =>
      cases v with
      | encoded ch =>
        cases io <;>
          simp [db.AddToHistory, bolt.DB.Update, bolt.Tx.Bucket, bolt.Bucket.Get, hk,
            bolt.Bucket.Put, jsonMarshal, jsonUnmarshal, truncate_eq_lastN] at h
        refine ⟨rfl, b, ch.History, rfl, LoadHistory_encoded _ _ b ch rfl hk, ?_⟩
        rw [← h, withHistory, ← truncate_eq_lastN]
        simp
      | malformed raw =>
        cases io <;>
          simp [db.AddToHistory, bolt.DB.Update, bolt.Tx.Bucket, bolt.Bucket.Get, hk,
            bolt.Bucket.Put, jsonMarshal, jsonUnmarshal] at h

/-! ## Record keys are injective -/

theorem charDigit_digitChar (d : Nat) (h : d < 10) : charDigit (digitChar d) = d := by
  have key : ∀ x : Fin 10, charDigit (digitChar x.val) = x.val := by decide
  exact key ⟨d, h⟩

theorem digitChar_ne_minus (d : Nat) (h : d < 10) : digitChar d ≠ Char.ofNat 45 := by
  have key : ∀ x : Fin 10, digitChar x.val ≠ Char.ofNat 45 := by decide
  exact key ⟨d, h⟩

theorem map_charDigit_digitChar (ds : List Nat) (h : ∀ d ∈ ds, d < 10) :
    (ds.map digitChar).map charDigit = ds := by
  induction ds with
  | nil => rfl
  | cons d rest ih =>
    simp only [List.map_cons, List.cons.injEq]
    exact ⟨charDigit_digitChar d (h d (List.mem_cons_self d rest)),
      ih (fun x hx => h x (List.mem_cons_of_mem d hx))⟩

theorem parseNat_fmtNat (n : Nat) : parseNat (fmtNat n) = n := by
  unfold fmtNat parseNat
  split
  · next h => subst h; decide
  · rw [map_charDigit_digitChar, List.reverse_reverse, Nat.ofDigits_digits]
    intro d hd
    exact Nat.digits_lt_base (by decide) (List.mem_reverse.mp hd)

theorem fmtNat_injective : Function.Injective fmtNat :=
  Function.LeftInverse.injective parseNat_fmtNat

theorem fmtNat_head_ne_minus (n : Nat) : ∀ c rest, fmtNat n = c :: rest → c ≠ Char.ofNat 45 := by
  intro c rest h
  unfold fmtNat at h
  split at h
  · simp only [List.cons.injEq] at h
    rw [← h.1]; decide
  · have hc : c ∈ ((Nat.digits 10 n).reverse).map digitChar := by rw [h]; exact List.mem_cons_self c rest
    obtain ⟨d, hd, rfl⟩ := List.mem_map.mp hc
    exact digitChar_ne_minus d (Nat.digits_lt_base (by decide) (List.mem_reverse.mp hd))

theorem fmtInt_injective : Function.Injective fmtInt := by
  intro a b h
  cases a with
  | ofNat n =>
    cases b with
    | ofNat m => simp only [fmtInt] at h; rw [fmtNat_injective h]
    | negSucc m =>
      simp only [fmtInt] at h
      exact absurd rfl (fmtNat_head_ne_minus n _ _ h)
  | negSucc n =>
    cases b with
    | ofNat m =>
      simp only [fmtInt] at h
      exact absurd rfl (fmtNat_head_ne_minus m _ _ h.symm)
    | negSucc m =>
      simp only [fmtInt, List.cons.injEq, true_and] at h
      have := fmtNat_injective h
      simp only [add_left_inj] at this
      rw [this]

/-- The record key is an injective function of the chat id. -/
theorem chatKey_injective : Function.Injective chatKey := by
  intro a b h
  have h' : "chat_".toList ++ fmtInt a = "chat_".toList ++ fmtInt b := congrArg String.data h
  exact fmtInt_injective (List.append_cancel_left h')

/-- Sample keys. -/
theorem chatKey_examples :
    chatKey 42 = "chat_42" ∧ chatKey 0 = "chat_0" ∧ chatKey (Int.negSucc 41) = "chat_-42" := by
  refine ⟨?_, ?_, ?_⟩ <;> simp [chatKey, fmtInt, fmtNat, digitChar]

/-! ## Package `db`: appends -/

/-- A transaction that reports an error is rolled back. -/
theorem Update_error_unchanged (io : bolt.Fault) (d d' : bolt.DB)
    (fn : bolt.DB → Except Error bolt.DB) (e : Error)
    (h : bolt.DB.Update io d fn = (d', some e)) : d' = d := by
  unfold bolt.DB.Update at h
  split at h
  · exact (Prod.mk.inj h).1.symm
  · cases hfn : fn d with
    | error err =>
      rw [hfn] at h
      exact (Prod.mk.inj h).1.symm
    | ok tx =>
      rw [hfn] at h
      simp only at h
      split at h
      · exact (Prod.mk.inj h).1.symm
      · simp at h

/-- An append that reports an error leaves the database as it was. -/
theorem AddToHistory_error_unchanged (io : bolt.Fault) (d d' : bolt.DB) (chatID : Int)
    (entry : String) (e : Error) (h : db.AddToHistory io d chatID entry = (d', some e)) :
    d' = d := by
  unfold db.AddToHistory at h
  exact Update_error_unchanged io d d' _ e h

/-- An append never panics: the error it may return is a Go error value. -/
theorem AddToHistory_error_ne_nilBucket (io : bolt.Fault) (d : bolt.DB) (chatID : Int)
    (entry : String) : (db.AddToHistory io d chatID entry).2 ≠ some Error.nilBucket := by
  obtain ⟨_ | b⟩ := d
  · cases io <;> simp [db.AddToHistory, bolt.DB.Update, bolt.Tx.Bucket]
  · cases hk : b (chatKey chatID) with
    | none =>
      cases io <;>
        simp [db.AddToHistory, bolt.DB.Update, bolt.Tx.Bucket, bolt.Bucket.Get, hk,
          bolt.Bucket.Put, jsonMarshal]
    | some v =>
      cases v <;> cases io <;>
        simp [db.AddToHistory, bolt.DB.Update, bolt.Tx.Bucket, bolt.Bucket.Get, hk,
          bolt.Bucket.Put, jsonMarshal, jsonUnmarshal]

/-- With no storage fault, an existing bucket and a readable record, the append
succeeds. -/
theorem AddToHistory_succeeds (d : bolt.DB) (chatID : Int) (entry : String) (b : bolt.Bucket)
    (s : List String) (hb : d.bucket = some b)
    (hs : db.LoadHistory bolt.Fault.none d chatID = (s, none)) :
    db.AddToHistory bolt.Fault.none d chatID entry =
      (withHistory b chatID (lastN db.MaxHistory (s ++ [entry])), none) := by
  obtain ⟨bk⟩ := d
  simp only at hb
  subst hb
  cases hk : b (chatKey chatID) with
  | none =>
    rw [LoadHistory_absent _ _ b rfl hk] at hs
    simp only [Prod.mk.injEq, and_true] at hs
    subst hs
    simp [db.AddToHistory, bolt.DB.Update, bolt.Tx.Bucket, bolt.Bucket.Get, hk,
      bolt.Bucket.Put, jsonMarshal, db.MaxHistory, withHistory, lastN]
  | some v =>
    cases v with
    | encoded ch =>
      rw [LoadHistory_encoded _ _ b ch rfl hk] at hs
      simp only [Prod.mk.injEq, and_true] at hs
      subst hs
      rw [withHistory, ← truncate_eq_lastN]
      simp [db.AddToHistory, bolt.DB.Update, bolt.Tx.Bucket, bolt.Bucket.Get, hk,
        bolt.Bucket.Put, jsonMarshal, jsonUnmarshal]
    | malformed raw =>
      rw [LoadHistory_malformed _ _ b raw rfl hk] at hs
      simp at hs

theorem LoadHistory_withHistory_other (b : bolt.Bucket) (a c : Int) (history : List String)
    (h : chatKey c ≠ chatKey a) :
    db.LoadHistory bolt.Fault.none (withHistory b a history) c =
      db.LoadHistory bolt.Fault.none { bucket := some b } c := by
  simp [db.LoadHistory, bolt.DB.View, bolt.Tx.Bucket, bolt.Bucket.Get, withHistory, h]

theorem record_withHistory_other (b : bolt.Bucket) (a c : Int) (history : List String)
    (h : c ≠ a) : record (withHistory b a history) c = record { bucket := some b } c := by
  have hk : chatKey c ≠ chatKey a := fun hk => h (chatKey_injective hk)
  simp [record, withHistory, hk]

/-! ## Package `main`: recording a reply -/

/-- The second write of `addToHistory`, on a database whose record for the id was
just written: it replaces that record unless a storage fault strikes. -/
theorem secondWrite_withHistory (io₃ : bolt.Fault) (b : bolt.Bucket) (chatID : Int)
    (h₁ h₂ : List String) :
    bolt.DB.Update io₃ (withHistory b chatID h₁) (fun tx =>
        match bolt.Tx.Bucket tx with
        | none => Except.error Error.nilBucket
        | some b =>
          match bolt.Bucket.Put io₃ b (chatKey chatID) (jsonMarshal { History := h₂ }) with
          | Except.error e => Except.error e
          | Except.ok b' => Except.ok { bucket := some b' })
      = if io₃ = bolt.Fault.none then (withHistory b chatID h₂, none)
        else (withHistory b chatID h₁, some Error.storage) := by
  cases io₃ <;>
    simp [bolt.DB.Update, bolt.Tx.Bucket, bolt.Bucket.Put, jsonMarshal, withHistory]
  funext k
  by_cases hk : k = chatKey chatID <;> simp [hk]

/-- Recording a reply with no storage fault, on an existing bucket and a readable
record: the record becomes the last `MaxContextMessages` entries of the old
history followed by the reply. -/
theorem addToHistory_faultfree (d : bolt.DB) (chatID : Int) (response : String)
    (b : bolt.Bucket) (s : List String) (hb : d.bucket = some b)
    (hs : db.LoadHistory bolt.Fault.none d chatID = (s, none)) :
    main.addToHistory bolt.Fault.none bolt.Fault.none bolt.Fault.none d chatID response =
      some (withHistory b chatID (lastN main.MaxContextMessages (s ++ [response]))) := by
  unfold main.addToHistory
  rw [AddToHistory_succeeds d chatID response b s hb hs]
  simp only [LoadHistory_withHistory]
  split
  · next hlen =>
    rw [secondWrite_withHistory]
    simp only [if_true]
    rw [← lastN_eq_drop, lastN_lastN _ _ _ (by decide)]
  · next hlen =>
    have hlen' : (s ++ [response]).length ≤ main.MaxContextMessages := by
      rw [lastN_length] at hlen
      simp only [db.MaxHistory, main.MaxContextMessages] at hlen ⊢
      omega
    rw [lastN_of_length_le _ _ hlen', lastN_of_length_le]
    simp only [db.MaxHistory, main.MaxContextMessages] at hlen' ⊢
    omega

/-- Whatever storage faults strike, recording a reply either leaves the database
as it was, or leaves the record written by the append (last `MaxHistory`
entries), or leaves the record written by the second write (last
`MaxContextMessages` entries); it never panics. -/
theorem addToHistory_cases (io₁ io₂ io₃ : bolt.Fault) (d : bolt.DB) (chatID : Int)
    (response : String) :
    main.addToHistory io₁ io₂ io₃ d chatID response = some d ∨
      ∃ b s, d.bucket = some b ∧ db.LoadHistory bolt.Fault.none d chatID = (s, none) ∧
        (main.addToHistory io₁ io₂ io₃ d chatID response =
            some (withHistory b chatID (lastN db.MaxHistory (s ++ [response])))
          ∨ main.addToHistory io₁ io₂ io₃ d chatID response =
            some (withHistory b chatID (lastN main.MaxContextMessages (s ++ [response])))) := by
  unfold main.addToHistory
  rcases hA : db.AddToHistory io₁ d chatID response with ⟨d₁, _ | e⟩
  · obtain ⟨-, b, s, hb, hs, rfl⟩ := AddToHistory_ok _ _ _ _ _ hA
    right
    refine ⟨b, s, hb, hs, ?_⟩
    simp only
    by_cases h2 : io₂ = bolt.Fault.beginTx
    · subst h2
      rw [LoadHistory_beginTx]
      left
      rfl
    · rw [LoadHistory_of_ne_beginTx _ h2, LoadHistory_withHistory]
      simp only
      split
      · rw [secondWrite_withHistory]
        by_cases h3 : io₃ = bolt.Fault.none
        · right
          simp only [h3, if_true]
          rw [← lastN_eq_drop, lastN_lastN _ _ _ (by decide)]
        · left
          simp only [h3, if_false]
      · left
        rfl
  · left
    simp only
    rw [AddToHistory_error_unchanged _ _ _ _ _ _ hA]

/-- Clearing on an existing bucket: the key is deleted unless a storage fault
strikes, in which case nothing changes; the call does not panic. -/
theorem clearHistory_bucket (io : bolt.Fault) (d : bolt.DB) (chatID : Int) (b : bolt.Bucket)
    (hb : d.bucket = some b) :
    main.clearHistory io d chatID =
      some (if io = bolt.Fault.none
        then { bucket := some (fun k => if k = chatKey chatID then none else b k) } else d) := by
  obtain ⟨bk⟩ := d
  simp only at hb
  subst hb
  cases io <;>
    simp [main.clearHistory, bolt.DB.Update, bolt.Tx.Bucket, bolt.Bucket.Delete]

/-- Clearing when the bucket is missing: the closure calls `Delete` on a nil
bucket and panics, unless the transaction could not even be begun. -/
theorem clearHistory_no_bucket (io : bolt.Fault) (d : bolt.DB) (chatID : Int)
    (hb : d.bucket = none) :
    main.clearHistory io d chatID = if io = bolt.Fault.beginTx then some d else none := by
  obtain ⟨bk⟩ := d
  simp only at hb
  subst hb
  cases io <;>
    simp [main.clearHistory, bolt.DB.Update, bolt.Tx.Bucket]

/-- When `InitDB` succeeds, it returns a database whose bucket exists. -/
theorem InitDB_creates_bucket (openErr : Bool) (io : bolt.Fault) (file d : bolt.DB)
    (h : db.InitDB openErr io file = Except.ok d) : ∃ b, d.bucket = some b := by
  obtain ⟨_ | b⟩ := file <;> cases openErr <;> cases io <;>
    simp [db.InitDB, bolt.DB.Update, bolt.Tx.CreateBucketIfNotExists] at h
  all_goals subst h
  all_goals exact ⟨_, rfl⟩

/-! ## Sequences of calls and the store invariant -/

theorem lastN_lastN_append {α : Type} (m k : Nat) (xs ys : List α) (h : m ≤ k + ys.length) :
    lastN m (lastN k xs ++ ys) = lastN m (xs ++ ys) := by
  simp only [lastN, List.reverse_append, List.reverse_reverse, List.take_append_eq_append_take,
    List.take_take, List.length_reverse]
  congr 3
  omega

theorem appendAll_history (chatID : Int) (steps : List (bolt.Fault × String)) :
    ∀ (d d' : bolt.DB) (s : List String),
      db.LoadHistory bolt.Fault.none d chatID = (s, none) → s.length ≤ db.MaxHistory →
      appendAll d chatID steps = some d' →
      db.LoadHistory bolt.Fault.none d' chatID
        = (lastN db.MaxHistory (s ++ steps.map Prod.snd), none) := by
  induction steps with
  | nil =>
    intro d d' s hs hlen hrun
    simp only [appendAll, Option.some.injEq] at hrun
    subst hrun
    rw [List.map_nil, List.append_nil, lastN_of_length_le _ _ hlen]
    exact hs
  | cons step rest ih =>
    intro d d' s hs hlen hrun
    unfold appendAll at hrun
    rcases hA : db.AddToHistory step.1 d chatID step.2 with ⟨d₁, _ | e⟩
    · rw [hA] at hrun
      simp only at hrun
      obtain ⟨-, b, s₀, -, hs₀, rfl⟩ := AddToHistory_ok _ _ _ _ _ hA
      rw [hs] at hs₀
      simp only [Prod.mk.injEq, and_true] at hs₀
      subst hs₀
      have h₁ := ih _ d' _ (LoadHistory_withHistory b chatID _)
        (by rw [lastN_length]; exact Nat.min_le_left _ _) hrun
      rw [h₁, lastN_lastN_append _ _ _ _ (Nat.le_add_right _ _)]
      simp
    · rw [hA] at hrun
      simp at hrun

theorem appendAll_faultfree_succeeds (chatID : Int) (entries : List String) :
    ∀ (d : bolt.DB) (b : bolt.Bucket) (s : List String), d.bucket = some b →
      db.LoadHistory bolt.Fault.none d chatID = (s, none) →
      ∃ d', appendAll d chatID (entries.map (fun e => (bolt.Fault.none, e))) = some d' := by
  induction entries with
  | nil => intro d b s _ _; exact ⟨d, rfl⟩
  | cons e rest ih =>
    intro d b s hb hs
    simp only [List.map_cons, appendAll]
    rw [AddToHistory_succeeds d chatID e b s hb hs]
    exact ih (withHistory b chatID (lastN db.MaxHistory (s ++ [e]))) _ _ rfl
      (LoadHistory_withHistory b chatID _)

theorem recordAll_history (chatID : Int) (replies : List String) :
    ∀ (d : bolt.DB) (b : bolt.Bucket) (s : List String), d.bucket = some b →
      db.LoadHistory bolt.Fault.none d chatID = (s, none) → s.length ≤ main.MaxContextMessages →
      ∃ d', recordAll d chatID replies = some d' ∧
        db.LoadHistory bolt.Fault.none d' chatID
          = (lastN main.MaxContextMessages (s ++ replies), none) := by
  induction replies with
  | nil =>
    intro d b s _ hs hlen
    refine ⟨d, rfl, ?_⟩
    rw [List.append_nil, lastN_of_length_le _ _ hlen]
    exact hs
  | cons r rest ih =>
    intro d b s hb hs hlen
    simp only [recordAll]
    rw [addToHistory_faultfree d chatID r b s hb hs]
    obtain ⟨d', hrun, hload⟩ :=
      ih (withHistory b chatID (lastN main.MaxContextMessages (s ++ [r]))) _ _ rfl
        (LoadHistory_withHistory b chatID _) (by rw [lastN_length]; exact Nat.min_le_left _ _)
    refine ⟨d', hrun, ?_⟩
    rw [hload, lastN_lastN_append _ _ _ _ (Nat.le_add_right _ _)]
    simp

theorem LoadHistory_erased (b : bolt.Bucket) (a c : Int) :
    db.LoadHistory bolt.Fault.none
        { bucket := some (fun k => if k = chatKey a then none else b k) } c
      = if c = a then ([], none) else db.LoadHistory bolt.Fault.none { bucket := some b } c := by
  by_cases h : c = a
  · subst h
    simp [db.LoadHistory, bolt.DB.View, bolt.Tx.Bucket, bolt.Bucket.Get]
  · have hk : chatKey c ≠ chatKey a := fun hk => h (chatKey_injective hk)
    simp [db.LoadHistory, bolt.DB.View, bolt.Tx.Bucket, bolt.Bucket.Get, h, hk]

theorem record_erased_other (b : bolt.Bucket) (a c : Int) (h : c ≠ a) :
    record { bucket := some (fun k => if k = chatKey a then none else b k) } c
      = record { bucket := some b } c := by
  have hk : chatKey c ≠ chatKey a := fun hk => h (chatKey_injective hk)
  simp [record, hk]

/-- What a load returns depends only on whether the bucket exists and on the
record of the id. -/
theorem LoadHistory_congr (io : bolt.Fault) (d d' : bolt.DB) (c : Int)
    (hb : d'.bucket.isSome = d.bucket.isSome) (hr : record d' c = record d c) :
    db.LoadHistory io d' c = db.LoadHistory io d c := by
  obtain ⟨_ | b⟩ := d <;> obtain ⟨_ | b'⟩ := d'
  · rfl
  · simp at hb
  · simp at hb
  · simp only [record] at hr
    simp [db.LoadHistory, bolt.DB.View, bolt.Tx.Bucket, bolt.Bucket.Get, hr]

theorem BoundedStore_withHistory (b : bolt.Bucket) (a : Int) (h : List String)
    (hd : BoundedStore { bucket := some b }) (hlen : h.length ≤ db.MaxHistory) :
    BoundedStore (withHistory b a h) := by
  intro c s hload
  by_cases hc : c = a
  · subst hc
    rw [LoadHistory_withHistory] at hload
    rw [← (Prod.mk.inj hload).1]
    exact hlen
  · have hk : chatKey c ≠ chatKey a := fun hk => hc (chatKey_injective hk)
    rw [LoadHistory_withHistory_other _ _ _ _ hk] at hload
    exact hd c s hload

theorem BoundedStore_erased (b : bolt.Bucket) (a : Int) (hd : BoundedStore { bucket := some b }) :
    BoundedStore { bucket := some (fun k => if k = chatKey a then none else b k) } := by
  intro c s hload
  rw [LoadHistory_erased] at hload
  split at hload
  · rw [← (Prod.mk.inj hload).1]
    exact Nat.zero_le _
  · exact hd c s hload

theorem BoundedStore_emptyStore : BoundedStore emptyStore := by
  intro c s hload
  rw [LoadHistory_absent emptyStore c (fun _ => none) rfl rfl] at hload
  rw [← (Prod.mk.inj hload).1]
  exact Nat.zero_le _

theorem BoundedStore_no_bucket : BoundedStore { bucket := none } := by
  intro c s hload
  rw [LoadHistory_no_bucket _ c rfl] at hload
  simp at hload

theorem BoundedStore_AddToHistory (io : bolt.Fault) (d : bolt.DB) (chatID : Int) (entry : String)
    (hd : BoundedStore d) : BoundedStore (db.AddToHistory io d chatID entry).1 := by
  rcases hA : db.AddToHistory io d chatID entry with ⟨d₁, _ | e⟩
  · obtain ⟨-, b, s, hb, -, rfl⟩ := AddToHistory_ok _ _ _ _ _ hA
    obtain ⟨bk⟩ := d
    simp only at hb
    subst hb
    exact BoundedStore_withHistory b chatID _ hd (by rw [lastN_length]; exact Nat.min_le_left _ _)
  · rw [AddToHistory_error_unchanged _ _ _ _ _ _ hA]
    exact hd

theorem BoundedStore_addToHistory (io₁ io₂ io₃ : bolt.Fault) (d : bolt.DB) (chatID : Int)
    (response : String) (hd : BoundedStore d) :
    ∃ d', main.addToHistory io₁ io₂ io₃ d chatID response = some d' ∧ BoundedStore d' := by
  rcases addToHistory_cases io₁ io₂ io₃ d chatID response with h | ⟨b, s, hb, -, h | h⟩
  · exact ⟨d, h, hd⟩
  · obtain ⟨bk⟩ := d
    simp only at hb
    subst hb
    exact ⟨_, h, BoundedStore_withHistory b chatID _ hd
      (by rw [lastN_length]; exact Nat.min_le_left _ _)⟩
  · obtain ⟨bk⟩ := d
    simp only at hb
    subst hb
    refine ⟨_, h, BoundedStore_withHistory b chatID _ hd ?_⟩
    rw [lastN_length]
    exact le_trans (Nat.min_le_left _ _) (by decide)

theorem BoundedStore_clearHistory (io : bolt.Fault) (d d' : bolt.DB) (chatID : Int)
    (hd : BoundedStore d) (h : main.clearHistory io d chatID = some d') : BoundedStore d' := by
  obtain ⟨_ | b⟩ := d
  · rw [clearHistory_no_bucket _ _ _ rfl] at h
    split at h
    · simp only [Option.some.injEq] at h
      rw [← h]
      exact hd
    · simp at h
  · rw [clearHistory_bucket _ _ _ b rfl] at h
    simp only [Option.some.injEq] at h
    rw [← h]
    split
    · exact BoundedStore_erased b chatID hd
    · exact hd

/-! ## C2: what `main.addToHistory` retains -/

/-- C2, counterexample. Recording a1..a12 for chat 1 on a freshly initialised
store, with no storage fault, leaves the history a5..a12 (eight replies), not the
last `min 12 MaxHistory = 10` replies a3..a12 the claim asks for. -/
theorem addToHistory_twelve_replies_keeps_eight :
    (recordAll emptyStore 1
        ["a1", "a2", "a3", "a4", "a5", "a6", "a7", "a8", "a9", "a10", "a11", "a12"]).map
        (fun d => db.LoadHistory bolt.Fault.none d 1)
      = some (["a5", "a6", "a7", "a8", "a9", "a10", "a11", "a12"], none)
    ∧ lastN (min 12 db.MaxHistory)
        ["a1", "a2", "a3", "a4", "a5", "a6", "a7", "a8", "a9", "a10", "a11", "a12"]
      = ["a3", "a4", "a5", "a6", "a7", "a8", "a9", "a10", "a11", "a12"]
    ∧ (recordAll emptyStore 1
        ["a1", "a2", "a3", "a4", "a5", "a6", "a7", "a8", "a9", "a10", "a11", "a12"]).map
        (fun d => db.LoadHistory bolt.Fault.none d 1)
      ≠ some (lastN (min 12 db.MaxHistory)
          ["a1", "a2", "a3", "a4", "a5", "a6", "a7", "a8", "a9", "a10", "a11", "a12"], none) := by
  obtain ⟨d', hrun, hload⟩ := recordAll_history 1
    ["a1", "a2", "a3", "a4", "a5", "a6", "a7", "a8", "a9", "a10", "a11", "a12"]
    emptyStore (fun _ => none) [] rfl (LoadHistory_absent emptyStore 1 (fun _ => none) rfl rfl)
    (by decide)
  have hlast : lastN main.MaxContextMessages
      ([] ++ ["a1", "a2", "a3", "a4", "a5", "a6", "a7", "a8", "a9", "a10", "a11", "a12"])
      = ["a5", "a6", "a7", "a8", "a9", "a10", "a11", "a12"] := by decide
  have hclaim : lastN (min 12 db.MaxHistory)
      ["a1", "a2", "a3", "a4", "a5", "a6", "a7", "a8", "a9", "a10", "a11", "a12"]
      = ["a3", "a4", "a5", "a6", "a7", "a8", "a9", "a10", "a11", "a12"] := by decide
  rw [hlast] at hload
  rw [hrun, Option.map_some', hload, hclaim]
  exact ⟨rfl, rfl, by decide⟩

/-- C2, amended. Starting from an initialised store (the bucket exists) with no
record for the id, after `n` successive `main.addToHistory` calls that meet no
storage fault, every call completes and the retained history of the id is
exactly the most recently appended `min n MaxContextMessages = min n 8` replies,
in append order. -/
theorem addToHistory_retains_last_eight (d : bolt.DB) (chatID : Int) (b : bolt.Bucket)
    (replies : List String) (hb : d.bucket = some b) (hk : b (chatKey chatID) = none) :
    ∃ d', recordAll d chatID replies = some d'
      ∧ db.LoadHistory bolt.Fault.none d' chatID
          = (lastN (min replies.length main.MaxContextMessages) replies, none)
      ∧ min replies.length main.MaxContextMessages = min replies.length 8 := by
  obtain ⟨d', hrun, hload⟩ := recordAll_history chatID replies d b [] hb
    (LoadHistory_absent d chatID b hb hk) (Nat.zero_le _)
  refine ⟨d', hrun, ?_, rfl⟩
  rw [hload, lastN_min_length, List.nil_append]

/-- C2, amended, at a concrete input: a1..a12 recorded for chat 1 on a freshly
initialised store leaves a5..a12. -/
theorem addToHistory_retains_last_eight_witness :
    emptyStore.bucket = some (fun _ => none)
      ∧ (fun _ => none : bolt.Bucket) (chatKey 1) = none
      ∧ ∃ d', recordAll emptyStore 1
            ["a1", "a2", "a3", "a4", "a5", "a6", "a7", "a8", "a9", "a10", "a11", "a12"] = some d'
          ∧ db.LoadHistory bolt.Fault.none d' 1
              = (["a5", "a6", "a7", "a8", "a9", "a10", "a11", "a12"], none) := by
  refine ⟨rfl, rfl, ?_⟩
  obtain ⟨d', hrun, hload, -⟩ := addToHistory_retains_last_eight emptyStore 1 (fun _ => none)
    ["a1", "a2", "a3", "a4", "a5", "a6", "a7", "a8", "a9", "a10", "a11", "a12"] rfl rfl
  refine ⟨d', hrun, ?_⟩
  rw [hload]
  decide

/-! ## C3: what `db.AddToHistory` retains -/

/-- C3. Starting from a store with no record for the id, `n` successive
successful `db.AddToHistory` calls leave the stored history equal to the last
`min n MaxHistory = min n 10` of the appended entries, in order; each single successful append maps a stored sequence
`s` to the last `min (len s + 1) MaxHistory` elements of `s ++ [entry]`; with no
storage fault all the appends do succeed; appending a1..a12 leaves a3..a12. -/
theorem AddToHistory_retains_last_ten (d d' : bolt.DB) (chatID : Int) (b : bolt.Bucket)
    (steps : List (bolt.Fault × String)) (hb : d.bucket = some b)
    (hk : b (chatKey chatID) = none) (hrun : appendAll d chatID steps = some d') :
    db.LoadHistory bolt.Fault.none d' chatID
        = (lastN (min steps.length db.MaxHistory) (steps.map Prod.snd), none)
      ∧ min steps.length db.MaxHistory = min steps.length 10
      ∧ (∀ (io : bolt.Fault) (d₀ d₁ : bolt.DB) (c : Int) (entry : String) (s : List String),
          db.LoadHistory bolt.Fault.none d₀ c = (s, none) →
          db.AddToHistory io d₀ c entry = (d₁, none) →
          db.LoadHistory bolt.Fault.none d₁ c
            = (lastN (min (s.length + 1) db.MaxHistory) (s ++ [entry]), none))
      ∧ (∀ entries : List String,
          ∃ d'', appendAll d chatID (entries.map (fun e => (bolt.Fault.none, e))) = some d'')
      ∧ (appendAll emptyStore 1
            (["a1", "a2", "a3", "a4", "a5", "a6", "a7", "a8", "a9", "a10", "a11", "a12"].map
              (fun e => (bolt.Fault.none, e)))).map
            (fun d'' => db.LoadHistory bolt.Fault.none d'' 1)
          = some (["a3", "a4", "a5", "a6", "a7", "a8", "a9", "a10", "a11", "a12"], none) := by
  refine ⟨?_, rfl, ?_, ?_, ?_⟩
  · have h := appendAll_history chatID steps d d' [] (LoadHistory_absent d chatID b hb hk)
      (Nat.zero_le _) hrun
    rw [h, List.nil_append]
    have hlen : steps.length = (steps.map Prod.snd).length := (List.length_map _ _).symm
    rw [hlen, lastN_min_length]
  · intro io d₀ d₁ c entry s hs hA
    obtain ⟨-, b₀, s₀, -, hs₀, rfl⟩ := AddToHistory_ok _ _ _ _ _ hA
    rw [hs] at hs₀
    simp only [Prod.mk.injEq, and_true] at hs₀
    subst hs₀
    rw [LoadHistory_withHistory]
    have hlen : s.length + 1 = (s ++ [entry]).length := by simp
    rw [hlen, lastN_min_length]
  · intro entries
    exact appendAll_faultfree_succeeds chatID entries d b [] hb
      (LoadHistory_absent d chatID b hb hk)
  · obtain ⟨d'', hrun''⟩ := appendAll_faultfree_succeeds 1
      ["a1", "a2", "a3", "a4", "a5", "a6", "a7", "a8", "a9", "a10", "a11", "a12"]
      emptyStore (fun _ => none) [] rfl (LoadHistory_absent emptyStore 1 (fun _ => none) rfl rfl)
    have h := appendAll_history 1 _ emptyStore d'' []
      (LoadHistory_absent emptyStore 1 (fun _ => none) rfl rfl) (Nat.zero_le _) hrun''
    rw [hrun'', Option.map_some', h]
    decide

/-- C3 at a concrete input: a1, a2, a3 appended for chat 1 on a freshly
initialised store, the appends succeed and leave a1, a2, a3. -/
theorem AddToHistory_retains_last_ten_witness :
    emptyStore.bucket = some (fun _ => none)
      ∧ (fun _ => none : bolt.Bucket) (chatKey 1) = none
      ∧ ∃ d', appendAll emptyStore 1
            [(bolt.Fault.none, "a1"), (bolt.Fault.none, "a2"), (bolt.Fault.none, "a3")] = some d'
          ∧ db.LoadHistory bolt.Fault.none d' 1 = (["a1", "a2", "a3"], none) := by
  refine ⟨rfl, rfl, ?_⟩
  obtain ⟨d', hrun⟩ := appendAll_faultfree_succeeds 1 ["a1", "a2", "a3"]
    emptyStore (fun _ => none) [] rfl (LoadHistory_absent emptyStore 1 (fun _ => none) rfl rfl)
  refine ⟨d', hrun, ?_⟩
  rw [(AddToHistory_retains_last_ten emptyStore d' 1 (fun _ => none) _ rfl rfl hrun).1]
  decide

/-! ## C4: the bound is an invariant of the store -/

/-- C4. That every stored history has at most `MaxHistory = 10` entries is an
invariant: it holds in the empty store (bucket just created, or not yet
created), and from any store where it holds it holds again after
`db.AddToHistory` (which is also the state between the two writes of
`main.addToHistory`), after `main.addToHistory` (which always completes) and
after any completed `main.clearHistory`, for every id, entry and storage
fault. -/
theorem history_bound_invariant (d : bolt.DB) (hd : BoundedStore d) :
    BoundedStore emptyStore ∧ BoundedStore { bucket := none }
      ∧ db.MaxHistory = 10
      ∧ (∀ (io : bolt.Fault) (chatID : Int) (entry : String),
          BoundedStore (db.AddToHistory io d chatID entry).1)
      ∧ (∀ (io₁ io₂ io₃ : bolt.Fault) (chatID : Int) (response : String),
          ∃ d', main.addToHistory io₁ io₂ io₃ d chatID response = some d' ∧ BoundedStore d')
      ∧ (∀ (io : bolt.Fault) (chatID : Int) (d' : bolt.DB),
          main.clearHistory io d chatID = some d' → BoundedStore d') :=
  ⟨BoundedStore_emptyStore, BoundedStore_no_bucket, rfl,
    fun io chatID entry => BoundedStore_AddToHistory io d chatID entry hd,
    fun io₁ io₂ io₃ chatID response => BoundedStore_addToHistory io₁ io₂ io₃ d chatID response hd,
    fun io chatID d' h => BoundedStore_clearHistory io d d' chatID hd h⟩

/-- C4 at a concrete input: a store holding ten entries for chat 1 stays within
the bound when an eleventh is appended. -/
theorem history_bound_invariant_witness :
    BoundedStore
        (withHistory (fun _ => none) 1 ["a1", "a2", "a3", "a4", "a5", "a6", "a7", "a8", "a9", "a10"])
      ∧ BoundedStore
          (db.AddToHistory bolt.Fault.none
            (withHistory (fun _ => none) 1
              ["a1", "a2", "a3", "a4", "a5", "a6", "a7", "a8", "a9", "a10"]) 1 "a11").1 := by
  have hd : BoundedStore
      (withHistory (fun _ => none) 1
        ["a1", "a2", "a3", "a4", "a5", "a6", "a7", "a8", "a9", "a10"]) :=
    BoundedStore_withHistory _ _ _ BoundedStore_emptyStore (by decide)
  exact ⟨hd, (history_bound_invariant _ hd).2.2.2.1 bolt.Fault.none 1 "a11"⟩

/-! ## C5: clearing resets the conversation -/

/-- C5. On an initialised store, with no storage fault striking the clear and
the append: `main.clearHistory` completes; afterwards `main.getChatHistory`
returns the empty sequence (whatever happens to the load); and a subsequent
`main.addToHistory` of a reply `x` completes and leaves the history of the id
equal to exactly `[x]`. -/
theorem clearHistory_resets (d : bolt.DB) (chatID : Int) (x : String) (b : bolt.Bucket)
    (hb : d.bucket = some b) :
    ∃ d₁, main.clearHistory bolt.Fault.none d chatID = some d₁
      ∧ (∀ io : bolt.Fault, main.getChatHistory io d₁ chatID = [])
      ∧ db.LoadHistory bolt.Fault.none d₁ chatID = ([], none)
      ∧ ∃ d₂, (∀ io₂ io₃ : bolt.Fault,
            main.addToHistory bolt.Fault.none io₂ io₃ d₁ chatID x = some d₂)
          ∧ db.LoadHistory bolt.Fault.none d₂ chatID = ([x], none)
          ∧ main.getChatHistory bolt.Fault.none d₂ chatID = [x] := by
  have hload : db.LoadHistory bolt.Fault.none
      { bucket := some (fun k => if k = chatKey chatID then none else b k) } chatID
      = ([], none) := by
    rw [LoadHistory_erased, if_pos rfl]
  refine ⟨_, by rw [clearHistory_bucket _ _ _ b hb, if_pos rfl], ?_, hload, ?_⟩
  · intro io
    by_cases hio : io = bolt.Fault.beginTx
    · subst hio
      simp [main.getChatHistory, LoadHistory_beginTx]
    · simp [main.getChatHistory, LoadHistory_of_ne_beginTx io hio, hload]
  · refine ⟨withHistory (fun k => if k = chatKey chatID then none else b k) chatID [x], ?_, ?_, ?_⟩
    · intro io₂ io₃
      unfold main.addToHistory
      rw [AddToHistory_succeeds _ chatID x _ [] rfl hload]
      have hx : lastN db.MaxHistory ([] ++ [x]) = [x] := rfl
      rw [hx]
      by_cases h2 : io₂ = bolt.Fault.beginTx
      · subst h2
        simp [LoadHistory_beginTx]
      · simp [LoadHistory_of_ne_beginTx io₂ h2, LoadHistory_withHistory, main.MaxContextMessages]
    · exact LoadHistory_withHistory _ _ _
    · simp [main.getChatHistory, LoadHistory_withHistory]

/-- C5 at a concrete input: chat 1 holding a1, a2 is cleared and then records
"x". -/
theorem clearHistory_resets_witness :
    (withHistory (fun _ => none) 1 ["a1", "a2"]).bucket
        = some (fun k =>
            if k = chatKey 1 then some (Bytes.encoded { History := ["a1", "a2"] }) else none)
      ∧ ∃ d₁, main.clearHistory bolt.Fault.none (withHistory (fun _ => none) 1 ["a1", "a2"]) 1
            = some d₁
          ∧ main.getChatHistory bolt.Fault.none d₁ 1 = []
          ∧ ∃ d₂, main.addToHistory bolt.Fault.none bolt.Fault.none bolt.Fault.none d₁ 1 "x"
                = some d₂
              ∧ main.getChatHistory bolt.Fault.none d₂ 1 = ["x"] := by
  refine ⟨rfl, ?_⟩
  obtain ⟨d₁, h₁, hget, -, d₂, h₂, -, hget₂⟩ :=
    clearHistory_resets (withHistory (fun _ => none) 1 ["a1", "a2"]) 1 "x" _ rfl
  exact ⟨d₁, h₁, hget bolt.Fault.none, d₂, h₂ bolt.Fault.none bolt.Fault.none, hget₂⟩

/-! ## C6: reading never fails -/

/-- C6. `main.getChatHistory` is total and returns a plain sequence: exactly the
sequence `db.LoadHistory` yields when the load succeeds, the empty sequence
whenever the load reports an error.  A successful load yields the stored
sequence, or the empty sequence when there is no record for the id, which is
not an error; the load reports an error when the transaction cannot be begun,
when the bucket is missing, and when the record fails to decode. -/
theorem getChatHistory_degrades (io : bolt.Fault) (d : bolt.DB) (chatID : Int) :
    (∀ s, db.LoadHistory io d chatID = (s, none) → main.getChatHistory io d chatID = s)
      ∧ (∀ s e, db.LoadHistory io d chatID = (s, some e) → main.getChatHistory io d chatID = [])
      ∧ (∀ b ch, d.bucket = some b → b (chatKey chatID) = some (Bytes.encoded ch) →
          db.LoadHistory bolt.Fault.none d chatID = (ch.History, none))
      ∧ (∀ b, d.bucket = some b → b (chatKey chatID) = none →
          db.LoadHistory bolt.Fault.none d chatID = ([], none))
      ∧ (∀ b raw, d.bucket = some b → b (chatKey chatID) = some (Bytes.malformed raw) →
          db.LoadHistory bolt.Fault.none d chatID = ([], some Error.unmarshal))
      ∧ (d.bucket = none →
          db.LoadHistory bolt.Fault.none d chatID = ([], some Error.bucketNotFound))
      ∧ db.LoadHistory bolt.Fault.beginTx d chatID = ([], some Error.storage) := by
  refine ⟨?_, ?_, ?_, ?_, ?_, ?_, LoadHistory_beginTx d chatID⟩
  · intro s h
    simp [main.getChatHistory, h]
  · intro s e h
    simp [main.getChatHistory, h]
  · intro b ch hb hk
    exact LoadHistory_encoded d chatID b ch hb hk
  · intro b hb hk
    exact LoadHistory_absent d chatID b hb hk
  · intro b raw hb hk
    exact LoadHistory_malformed d chatID b raw hb hk
  · intro hb
    exact LoadHistory_no_bucket d chatID hb

/-- C6 at concrete inputs: a stored history is returned, a missing record and a
failing load both give the empty sequence. -/
theorem getChatHistory_degrades_witness :
    main.getChatHistory bolt.Fault.none (withHistory (fun _ => none) 1 ["a1", "a2"]) 1
        = ["a1", "a2"]
      ∧ main.getChatHistory bolt.Fault.none emptyStore 1 = []
      ∧ main.getChatHistory bolt.Fault.none { bucket := none } 1 = [] := by
  refine ⟨?_, ?_, ?_⟩
  · exact (getChatHistory_degrades bolt.Fault.none _ 1).1 _ (LoadHistory_withHistory _ _ _)
  · exact (getChatHistory_degrades bolt.Fault.none emptyStore 1).1 _
      (LoadHistory_absent emptyStore 1 (fun _ => none) rfl rfl)
  · exact (getChatHistory_degrades bolt.Fault.none { bucket := none } 1).2.1 _ _
      (LoadHistory_no_bucket _ 1 rfl)

/-! ## Frame lemmas -/

theorem frame_withHistory (d : bolt.DB) (b : bolt.Bucket) (a c : Int) (h : List String)
    (hb : d.bucket = some b) (hne : a ≠ c) :
    (withHistory b a h).bucket.isSome = d.bucket.isSome
      ∧ record (withHistory b a h) c = record d c := by
  obtain ⟨bk⟩ := d
  simp only at hb
  subst hb
  exact ⟨rfl, record_withHistory_other b a c h (Ne.symm hne)⟩

theorem frame_AddToHistory (io : bolt.Fault) (d : bolt.DB) (a c : Int) (entry : String)
    (hne : a ≠ c) :
    (db.AddToHistory io d a entry).1.bucket.isSome = d.bucket.isSome
      ∧ record (db.AddToHistory io d a entry).1 c = record d c := by
  rcases hA : db.AddToHistory io d a entry with ⟨d₁, _ | e⟩
  · obtain ⟨-, b, s, hb, -, rfl⟩ := AddToHistory_ok _ _ _ _ _ hA
    exact frame_withHistory d b a c _ hb hne
  · rw [AddToHistory_error_unchanged _ _ _ _ _ _ hA]
    exact ⟨rfl, rfl⟩

theorem frame_addToHistory (io₁ io₂ io₃ : bolt.Fault) (d : bolt.DB) (a c : Int)
    (response : String) (hne : a ≠ c) :
    ∃ d', main.addToHistory io₁ io₂ io₃ d a response = some d'
      ∧ d'.bucket.isSome = d.bucket.isSome ∧ record d' c = record d c := by
  rcases addToHistory_cases io₁ io₂ io₃ d a response with h | ⟨b, s, hb, -, h | h⟩
  · exact ⟨d, h, rfl, rfl⟩
  · exact ⟨_, h, frame_withHistory d b a c _ hb hne⟩
  · exact ⟨_, h, frame_withHistory d b a c _ hb hne⟩

theorem frame_clearHistory (io : bolt.Fault) (d d' : bolt.DB) (a c : Int) (hne : a ≠ c)
    (h : main.clearHistory io d a = some d') :
    d'.bucket.isSome = d.bucket.isSome ∧ record d' c = record d c := by
  obtain ⟨_ | b⟩ := d
  · rw [clearHistory_no_bucket _ _ _ rfl] at h
    split at h
    · simp only [Option.some.injEq] at h
      rw [← h]
      exact ⟨rfl, rfl⟩
    · simp at h
  · rw [clearHistory_bucket _ _ _ b rfl] at h
    simp only [Option.some.injEq] at h
    rw [← h]
    split
    · exact ⟨rfl, record_erased_other b a c (Ne.symm hne)⟩
    · exact ⟨rfl, rfl⟩

theorem erase_absent (b : bolt.Bucket) (key : String) (hk : b key = none) :
    (fun k => if k = key then none else b k) = b := by
  funext k
  by_cases h : k = key
  · rw [if_pos h, h, hk]
  · rw [if_neg h]

theorem erase_erase (b : bolt.Bucket) (key : String) :
    (fun k => if k = key then none else (fun k => if k = key then none else b k) k)
      = (fun k => if k = key then none else b k) := by
  funext k
  by_cases h : k = key <;> simp [h]

/-! ## C7: a failed append changes nothing -/

/-- C7. If `db.AddToHistory` returns an error then the database, hence the stored
record of every id, is unchanged, and `main.addToHistory` meeting that failed
append returns at once with the database unchanged, performing no further
write.  The append does return an error, with the database unchanged, when the
bucket is missing, when the stored record fails to decode, and when a storage
fault strikes the transaction (begin, write or commit). -/
theorem AddToHistory_atomic_on_failure (io : bolt.Fault) (d d' : bolt.DB) (chatID : Int)
    (entry : String) (e : Error) (h : db.AddToHistory io d chatID entry = (d', some e)) :
    d' = d
      ∧ (∀ c : Int, record d' c = record d c)
      ∧ (∀ io₂ io₃ : bolt.Fault, main.addToHistory io io₂ io₃ d chatID entry = some d)
      ∧ (∀ (io₀ : bolt.Fault) (d₀ : bolt.DB), d₀.bucket = none →
          ∃ e₀, db.AddToHistory io₀ d₀ chatID entry = (d₀, some e₀))
      ∧ (∀ (io₀ : bolt.Fault) (d₀ : bolt.DB) (b : bolt.Bucket) (raw : String),
          d₀.bucket = some b → b (chatKey chatID) = some (Bytes.malformed raw) →
          ∃ e₀, db.AddToHistory io₀ d₀ chatID entry = (d₀, some e₀))
      ∧ (∀ (io₀ : bolt.Fault) (d₀ : bolt.DB), io₀ ≠ bolt.Fault.none →
          ∃ e₀, db.AddToHistory io₀ d₀ chatID entry = (d₀, some e₀)) := by
  have hd : d' = d := AddToHistory_error_unchanged _ _ _ _ _ _ h
  have fails : ∀ (io₀ : bolt.Fault) (d₀ : bolt.DB),
      (∀ d₁, db.AddToHistory io₀ d₀ chatID entry ≠ (d₁, none)) →
      ∃ e₀, db.AddToHistory io₀ d₀ chatID entry = (d₀, some e₀) := by
    intro io₀ d₀ hno
    rcases hA : db.AddToHistory io₀ d₀ chatID entry with ⟨d₁, _ | e₀⟩
    · exact absurd hA (hno d₁)
    · rw [AddToHistory_error_unchanged _ _ _ _ _ _ hA]
      exact ⟨e₀, rfl⟩
  refine ⟨hd, fun c => by rw [hd], ?_, ?_, ?_, ?_⟩
  · intro io₂ io₃
    unfold main.addToHistory
    rw [h, hd]
  · intro io₀ d₀ hb
    apply fails
    intro d₁ hA
    obtain ⟨-, b, s, hb', -, -⟩ := AddToHistory_ok _ _ _ _ _ hA
    rw [hb] at hb'
    simp at hb'
  · intro io₀ d₀ b raw hb hk
    apply fails
    intro d₁ hA
    obtain ⟨-, b', s, -, hs, -⟩ := AddToHistory_ok _ _ _ _ _ hA
    rw [LoadHistory_malformed d₀ chatID b raw hb hk] at hs
    simp at hs
  · intro io₀ d₀ hio
    apply fails
    intro d₁ hA
    exact hio (AddToHistory_ok _ _ _ _ _ hA).1

/-- C7 at a concrete input: the write of an append for chat 1 fails on a store
holding a1 for chat 1; the store is unchanged. -/
theorem AddToHistory_atomic_on_failure_witness :
    db.AddToHistory bolt.Fault.write (withHistory (fun _ => none) 1 ["a1"]) 1 "a2"
        = (withHistory (fun _ => none) 1 ["a1"], some Error.storage)
      ∧ main.addToHistory bolt.Fault.write bolt.Fault.none bolt.Fault.none
          (withHistory (fun _ => none) 1 ["a1"]) 1 "a2"
        = some (withHistory (fun _ => none) 1 ["a1"]) := by
  have h : db.AddToHistory bolt.Fault.write (withHistory (fun _ => none) 1 ["a1"]) 1 "a2"
      = (withHistory (fun _ => none) 1 ["a1"], some Error.storage) := by
    simp [db.AddToHistory, bolt.DB.Update, bolt.Tx.Bucket, bolt.Bucket.Get, bolt.Bucket.Put,
      withHistory, jsonUnmarshal]
  exact ⟨h, (AddToHistory_atomic_on_failure _ _ _ _ _ _ h).2.2.1 bolt.Fault.none bolt.Fault.none⟩

/-! ## C8: clearing is idempotent -/

/-- C8. On an initialised store in which the id has no record,
`main.clearHistory` does not fail (it completes, whatever storage fault
strikes) and leaves the store unchanged, the id still absent and
`main.getChatHistory` empty; and for every store state, clearing the id twice in
a row under the same storage conditions gives the same outcome as clearing it
once. -/
theorem clearHistory_idempotent (io : bolt.Fault) (d : bolt.DB) (chatID : Int) (b : bolt.Bucket)
    (hb : d.bucket = some b) (hk : b (chatKey chatID) = none) :
    main.clearHistory io d chatID = some d
      ∧ record d chatID = none
      ∧ main.getChatHistory bolt.Fault.none d chatID = []
      ∧ (∀ (io₀ : bolt.Fault) (d₀ : bolt.DB),
          (main.clearHistory io₀ d₀ chatID).bind (fun d₁ => main.clearHistory io₀ d₁ chatID)
            = main.clearHistory io₀ d₀ chatID) := by
  obtain ⟨bk⟩ := d
  simp only at hb
  subst hb
  refine ⟨?_, ?_, ?_, ?_⟩
  · rw [clearHistory_bucket _ _ _ b rfl, erase_absent b _ hk]
    simp
  · simp [record, hk]
  · simp [main.getChatHistory, LoadHistory_absent _ chatID b rfl hk]
  · intro io₀ d₀
    obtain ⟨_ | b₀⟩ := d₀
    · rw [clearHistory_no_bucket _ _ _ rfl]
      split
      · next hio =>
        rw [Option.some_bind, clearHistory_no_bucket _ _ _ rfl, if_pos hio]
      · rfl
    · rw [clearHistory_bucket _ _ _ b₀ rfl, Option.some_bind]
      split
      · next hio =>
        rw [clearHistory_bucket _ _ _ _ rfl, if_pos hio, erase_erase]
      · next hio =>
        rw [clearHistory_bucket _ _ _ b₀ rfl, if_neg hio]

/-- C8 at a concrete input: clearing chat 1 on a freshly initialised store. -/
theorem clearHistory_idempotent_witness :
    emptyStore.bucket = some (fun _ => none)
      ∧ (fun _ => none : bolt.Bucket) (chatKey 1) = none
      ∧ main.clearHistory bolt.Fault.none emptyStore 1 = some emptyStore
      ∧ main.getChatHistory bolt.Fault.none emptyStore 1 = [] := by
  have h := clearHistory_idempotent bolt.Fault.none emptyStore 1 (fun _ => none) rfl rfl
  exact ⟨rfl, rfl, h.1, h.2.2.1⟩

/-! ## C10: conversations are isolated -/

/-- C10. For distinct chat ids `a` and `c` the record keys differ (the key is an
injective function of the id), and `db.AddToHistory`, `main.addToHistory` and
`main.clearHistory` on `a` leave the stored record of `c`, and so whatever
`db.LoadHistory` returns for `c`, unchanged, for every entry and storage
fault. -/
theorem conversations_isolated (d : bolt.DB) (a c : Int) (hne : a ≠ c) :
    chatKey a ≠ chatKey c ∧ Function.Injective chatKey
      ∧ (∀ (io : bolt.Fault) (entry : String),
          record (db.AddToHistory io d a entry).1 c = record d c
            ∧ ∀ io₀, db.LoadHistory io₀ (db.AddToHistory io d a entry).1 c
                = db.LoadHistory io₀ d c)
      ∧ (∀ (io₁ io₂ io₃ : bolt.Fault) (response : String),
          ∃ d', main.addToHistory io₁ io₂ io₃ d a response = some d'
            ∧ record d' c = record d c
            ∧ ∀ io₀, db.LoadHistory io₀ d' c = db.LoadHistory io₀ d c)
      ∧ (∀ (io : bolt.Fault) (d' : bolt.DB), main.clearHistory io d a = some d' →
          record d' c = record d c
            ∧ ∀ io₀, db.LoadHistory io₀ d' c = db.LoadHistory io₀ d c) := by
  refine ⟨fun hk => hne (chatKey_injective hk), chatKey_injective, ?_, ?_, ?_⟩
  · intro io entry
    obtain ⟨h₁, h₂⟩ := frame_AddToHistory io d a c entry hne
    exact ⟨h₂, fun io₀ => LoadHistory_congr io₀ _ _ c h₁ h₂⟩
  · intro io₁ io₂ io₃ response
    obtain ⟨d', hrun, h₁, h₂⟩ := frame_addToHistory io₁ io₂ io₃ d a c response hne
    exact ⟨d', hrun, h₂, fun io₀ => LoadHistory_congr io₀ _ _ c h₁ h₂⟩
  · intro io d' hrun
    obtain ⟨h₁, h₂⟩ := frame_clearHistory io d d' a c hne hrun
    exact ⟨h₂, fun io₀ => LoadHistory_congr io₀ _ _ c h₁ h₂⟩

/-- C10 at a concrete input: chat 2 holds b1; an append for chat 1 leaves what is
loaded for chat 2 unchanged. -/
theorem conversations_isolated_witness :
    (1 : Int) ≠ 2
      ∧ db.LoadHistory bolt.Fault.none
          (db.AddToHistory bolt.Fault.none (withHistory (fun _ => none) 2 ["b1"]) 1 "a1").1 2
        = (["b1"], none) := by
  refine ⟨by decide, ?_⟩
  rw [((conversations_isolated (withHistory (fun _ => none) 2 ["b1"]) 1 2 (by decide)).2.2.1
    bolt.Fault.none "a1").2 bolt.Fault.none]
  exact LoadHistory_withHistory _ _ _
